import Mathlib

/-!
Verification development for the MC script payoff compiler
(`ql/experimental/templatemodels/montecarlo/mcscriptT.hpp`).

The C++ class `MCScriptT` compiles a scripted list of assignment lines into
a symbol table of payoff nodes.  We embed the data model and the operations
shallowly:

* `MCPayoff` models the payoff-node DAG built by the compiler (the node
  constructors of the external `mcpayoffT.hpp`, which is referenced but not
  among the sources; each constructor records exactly the arguments the
  compiler passes).
* `Expression` models the syntax tree produced by the external
  flex/bison driver (`scripting/expression.hpp`): a type tag, a list of
  child trees and a list of leaf tokens.
* The symbol table `payoffs_` is a `std::map<std::string, ...>`, i.e. an
  association list kept sorted by key; `mapFind`/`mapInsert`/`mapReplace`
  model `find`, `insert` (no overwrite of an existing key) and
  `it->second = p`.
* Machine doubles are modelled by `Rat`; the claims only exercise exactly
  representable decimal values.
-/

namespace MCScript

/-! ## Character helpers and C standard library number parsing -/

/-- Decimal digit value of a character. -/
def digitVal (c : Char) : Nat := c.toNat - '0'.toNat

/-- Whitespace as classified by `isspace` in the C locale. -/
def isSpaceC (c : Char) : Bool :=
  c = ' ' || c = '\t' || c = '\n' || c = '\x0b' || c = '\x0c' || c = '\r'

/-- Fold a digit string into a natural number. -/
def digitsToNat (ds : List Char) : Nat := ds.foldl (fun a c => a * 10 + digitVal c) 0

/-- Modelled from the spec: `std::stol` (base 10) as used by `date_to_Number`:
skip leading whitespace, optional sign, then at least one decimal digit;
trailing characters are ignored; `none` models the `std::invalid_argument`
exception when no digits can be consumed.  (`std::stol` is standard-library
code, not part of the sources.) -/
def stol (s : String) : Option Int :=
  let cs := s.toList.dropWhile isSpaceC
  match cs with
  | '+' :: r =>
      if (r.takeWhile Char.isDigit).isEmpty then none
      else some (digitsToNat (r.takeWhile Char.isDigit) : Int)
  | '-' :: r =>
      if (r.takeWhile Char.isDigit).isEmpty then none
      else some (-(digitsToNat (r.takeWhile Char.isDigit) : Int))
  | _ =>
      if (cs.takeWhile Char.isDigit).isEmpty then none
      else some (digitsToNat (cs.takeWhile Char.isDigit) : Int)

/-- Modelled from the spec: the optional exponent part of `std::stod`.
Returns the exponent (0 when absent) and the remaining characters; the
exponent marker is only consumed when at least one digit follows it. -/
def expPart (cs : List Char) : Int × List Char :=
  match cs with
  | c :: rest =>
      if c = 'e' || c = 'E' then
        match rest with
        | '+' :: r2 =>
            if (r2.takeWhile Char.isDigit).isEmpty then (0, cs)
            else ((digitsToNat (r2.takeWhile Char.isDigit) : Int), r2.dropWhile Char.isDigit)
        | '-' :: r2 =>
            if (r2.takeWhile Char.isDigit).isEmpty then (0, cs)
            else (-(digitsToNat (r2.takeWhile Char.isDigit) : Int), r2.dropWhile Char.isDigit)
        | _ =>
            if (rest.takeWhile Char.isDigit).isEmpty then (0, cs)
            else ((digitsToNat (rest.takeWhile Char.isDigit) : Int), rest.dropWhile Char.isDigit)
      else (0, cs)
  | [] => (0, [])

/-- Modelled from the spec: decimal `std::stod` parsing ("locale-independent
decimal parsing" per the spec): skip whitespace, optional sign, digits with
an optional decimal point and an optional exponent; the longest valid prefix
is consumed.  The result is returned as discrete parts — sign, mantissa
digits, number of fraction digits, exponent — plus the unconsumed rest;
`none` models `std::invalid_argument` (no conversion could be performed).
Hexadecimal/infinity/NaN forms are not exercised by the scripts and are not
modelled. -/
def stodParts (cs0 : List Char) : Option (Int × Nat × Nat × Int × List Char) :=
  let cs1 := cs0.dropWhile isSpaceC
  let sgn : Int × List Char :=
    match cs1 with
    | '+' :: r => (1, r)
    | '-' :: r => (-1, r)
    | _ => (1, cs1)
  let ip := sgn.2.takeWhile Char.isDigit
  let r1 := sgn.2.dropWhile Char.isDigit
  let fr : List Char × List Char :=
    match r1 with
    | '.' :: rr => (rr.takeWhile Char.isDigit, rr.dropWhile Char.isDigit)
    | _ => ([], r1)
  if ip.isEmpty && fr.1.isEmpty then none
  else
    let e := expPart fr.2
    some (sgn.1, digitsToNat (ip ++ fr.1), fr.1.length, e.1, e.2)

/-- The value denoted by the parts of a parsed decimal literal. -/
def stodVal (sgn : Int) (mant fracLen : Nat) (e : Int) : Rat :=
  (sgn : Rat) * ((mant : Rat) / (10 : Rat) ^ fracLen) * (10 : Rat) ^ e

/-- The parsed value and the unconsumed rest of a decimal literal. -/
def stodCore (cs : List Char) : Option (Rat × List Char) :=
  (stodParts cs).map fun q => (stodVal q.1 q.2.1 q.2.2.1 q.2.2.2.1, q.2.2.2.2)

/-- Model of `MCScriptT::to_Number`: convert a string to a number via `std::stod`;
returns `none` exactly when `stod` throws (the C++ helper catches the
exception and reports `false`). -/
def to_Number (s : String) : Option Rat := (stodCore s.toList).map Prod.fst

/-! ## Date token parsing -/

/-- The month-abbreviation table of `MCScriptT::date_to_Number`
(case-sensitive exact comparisons, in source order). -/
def monthNumber (s : String) : Option Int :=
  if s = "Jan" then some 1
  else if s = "Feb" then some 2
  else if s = "Mar" then some 3
  else if s = "Apr" then some 4
  else if s = "May" then some 5
  else if s = "Jun" then some 6
  else if s = "Jul" then some 7
  else if s = "Aug" then some 8
  else if s = "Sep" then some 9
  else if s = "Oct" then some 10
  else if s = "Nov" then some 11
  else if s = "Dec" then some 12
  else none

/-- Modelled from the spec: serial-number arithmetic for dates.  The class
`Date` (`ql/time/date.hpp`) is not among the sources; the spec only uses
"serial number of the date", so we model it with the standard
days-from-civil formula (floor divisions), which is a strictly monotone
serial numbering of calendar dates. -/
def daysFromCivil (y m d : Int) : Int :=
  let yy := if m ≤ 2 then y - 1 else y
  let era := Int.fdiv yy 400
  let yoe := yy - era * 400
  let mp := (m + 9) % 12
  let doy := Int.fdiv (153 * mp + 2) 5 + d - 1
  let doe := yoe * 365 + Int.fdiv yoe 4 - Int.fdiv yoe 100 + doy
  era * 146097 + doe - 719468

/-- Model of `std::string::substr(pos, len)` on the character list of `s`. -/
def substr (s : String) (pos len : Nat) : String :=
  String.mk ((s.toList.drop pos).take len)

/-- Model of `MCScriptT::date_to_Number`: a 9-character `ddMMMyyyy` token is turned
into `(serial(date) - serial(evaluationDate)) / 365.0`.  The global
`Settings::instance().evaluationDate()` is passed explicitly as the serial
number `today`.  All C++ failure paths (wrong length, `stol` failure on the
day or year part, unknown month abbreviation) are caught inside the helper
and reported as `none` (no exception reaches the caller). -/
def date_to_Number (today : Int) (s : String) : Option Rat :=
  if s.length ≠ 9 then none
  else
    match stol (substr s 0 2), stol (substr s 5 4) with
    | some day, some year =>
        match monthNumber (substr s 2 3) with
        | some m => some (((daysFromCivil year m day - today : Int) : Rat) / 365)
        | none => none
    | _, _ => none

/-! ## The expression tree (external `Scripting::Expression`) -/

/-- The expression-type tags of `Scripting::Expression` used by
`MCScriptT::payoff`. -/
inductive ExprType where
  | NUMBER | IDENTIFIER | UNARYPLUS | UNARYMINUS | PLUS | MINUS | MULT | DIVISION
  | IFTHENELSE | MIN | MAX | LOGICAL | PAY | PAY_WITHDATE | CACHE | PAYOFFAT
  | PAYOFFAT_WITHDATE | ASSIGNMENT
deriving DecidableEq, Repr

/-- An abstract expression tree: a type tag, child trees, and leaf tokens
(mirrors `Scripting::Expression` with its `childs()` and `leafs()`
accessors). -/
inductive Expression where
  | mk (type : ExprType) (childs : List Expression) (leafs : List String)
deriving Repr

/-- The type tag of an expression tree. -/
def Expression.type : Expression → ExprType
  | .mk t _ _ => t

/-- The child trees of an expression tree. -/
def Expression.childs : Expression → List Expression
  | .mk _ c _ => c

/-- The leaf tokens of an expression tree. -/
def Expression.leafs : Expression → List String
  | .mk _ _ l => l

/-! ## Payoff nodes (external `MCPayoffT` constructors) -/

/-- Payoff nodes, mirroring the `MCPayoffT` node constructors invoked by the
compiler (`FixedAmount`, `Axpy` — whose third argument may be the null
pointer —, `Mult`, `Division`, `IfThenElse`, `Min`, `Max`, `Logical`,
`Pay`, `Cache`) together with `At`, the node returned by the external
member call `p->at(t)` in the `PAYOFFAT` cases. -/
inductive MCPayoff where
  | FixedAmount (amount : Rat)
  | Axpy (a : Rat) (x : MCPayoff) (y : Option MCPayoff)
  | Mult (x y : MCPayoff)
  | Division (x y : MCPayoff)
  | IfThenElse (c x y : MCPayoff)
  | Min (x y : MCPayoff)
  | Max (x y : MCPayoff)
  | Logical (x y : MCPayoff) (op : String)
  | Pay (x : MCPayoff) (t : Rat)
  | Cache (x : MCPayoff)
  | At (x : MCPayoff) (t : Rat)
deriving Repr

/-- Modelled from the spec: every payoff node exposes an observation time
(`mcpayoffT.hpp` is not among the sources).  Only the `Pay` fall-back branch
of the legacy grammar reads it; no claim depends on its value. -/
def MCPayoff.observationTime : MCPayoff → Rat
  | .FixedAmount _ => 0
  | .Axpy _ x none => x.observationTime
  | .Axpy _ x (some y) => max x.observationTime y.observationTime
  | .Mult x y => max x.observationTime y.observationTime
  | .Division x y => max x.observationTime y.observationTime
  | .IfThenElse c x y => max c.observationTime (max x.observationTime y.observationTime)
  | .Min x y => max x.observationTime y.observationTime
  | .Max x y => max x.observationTime y.observationTime
  | .Logical x y _ => max x.observationTime y.observationTime
  | .Pay x _ => x.observationTime
  | .Cache x => x.observationTime
  | .At _ t => t

/-! ## The symbol table (`std::map<std::string, MCPayoffT>`) -/

/-- The symbol table `payoffs_`: an association list kept sorted by key,
modelling the iteration order of `std::map`. -/
abbrev PayoffMap := List (String × MCPayoff)

/-- Model of `payoffs_.find(k)`: first entry with key `k`, if any. -/
def mapFind (m : PayoffMap) (k : String) : Option MCPayoff :=
  match m with
  | [] => none
  | (a, p) :: rest => if a = k then some p else mapFind rest k

/-- Model of `payoffs_.insert(std::make_pair(k, p))`: sorted insertion; like
`std::map::insert` it leaves the map unchanged in the region before the
insertion point and never displaces an existing equal key (the compiler
only calls it when `k` is absent).  `std::map`'s `std::less<std::string>`
is lexicographic comparison of the character sequences; we compare the
character lists, which is the order of Lean's `String`
(`String.lt_iff_toList_lt`) in a form that evaluates on concrete inputs. -/
def mapInsert (m : PayoffMap) (k : String) (p : MCPayoff) : PayoffMap :=
  match m with
  | [] => [(k, p)]
  | (a, q) :: rest => if k.data < a.data then (k, p) :: (a, q) :: rest
                      else (a, q) :: mapInsert rest k p

/-- Model of `it->second = p` on the iterator returned by `find(k)`: replace the value
of the first entry with key `k`. -/
def mapReplace (m : PayoffMap) (k : String) (p : MCPayoff) : PayoffMap :=
  match m with
  | [] => []
  | (a, q) :: rest => if a = k then (a, p) :: rest else (a, q) :: mapReplace rest k p

/-- Strict key-sortedness, the `std::map` representation invariant. -/
def keySorted (m : PayoffMap) : Prop := m.Pairwise (fun a b => a.1 < b.1)

/-! ## Diagnostic messages -/

/-- The message `QL_FAIL` raises throughout `MCScriptT::payoff`. -/
def qlFailMsg : String := "Cannot interprete payoff"

/-- The log entry of a failed `hasChilds` arity check. -/
def childsExpectedMsg (k n found : Nat) : String :=
  "Error line " ++ toString k ++ (": " ++ toString n ++ " child expressions expected, but "
    ++ toString found ++ " found.")

/-- The log entry of a failed `hasLeafs` arity check; like the C++ helper it
reports the size of `childs()` (not `leafs()`) as the found count. -/
def leafsExpectedMsg (k n foundChilds : Nat) : String :=
  "Error line " ++ toString k ++ (": " ++ toString n ++ " leafs expected, but "
    ++ toString foundChilds ++ " found.")

/-- The log entry for a leaf that cannot be converted to a number. -/
def convErrMsg (k : Nat) (l : String) : String :=
  "Error line " ++ toString k ++ (": cannot convert " ++ l ++ " to number.")

/-- The log entry for an identifier found in the symbol table. -/
def inMapMsg (k : Nat) (l : String) : String :=
  "Payoff line " ++ toString k ++ ": '" ++ l ++ "' is in map"

/-- The log entry for an identifier absent from the symbol table. -/
def noPayoffMsg (k : Nat) (l : String) : String :=
  "Error line " ++ toString k ++ (": '" ++ l ++ "' is no payoff")

/-- The log entry for an expression type the `switch` does not handle. -/
def unknownExprMsg (k : Nat) : String :=
  "Error line " ++ toString k ++ ": unknown expression type."

/-! ## The expression compiler (`MCScriptT::payoff(tree, k)`)

The C++ method logs into `scriptLog_` as a side effect and signals failure
through `QL_FAIL` exceptions; we return the result (`Except`) together with
the list of log entries it appends.  Subexpressions are compiled in the
left-to-right order of the source text (the C++ evaluation order of function
arguments is unspecified; only the log order depends on this choice). -/

/-- Sequence two compiled subexpressions and combine their payoffs; on a
failure of the first, the second's result and log are discarded (its
exception propagates before the second is evaluated). -/
def seq2 (x : Except String MCPayoff × List String)
    (y : Unit → Except String MCPayoff × List String)
    (f : MCPayoff → MCPayoff → MCPayoff) : Except String MCPayoff × List String :=
  match x with
  | (.error e, lg) => (.error e, lg)
  | (.ok p, lg) =>
      match y () with
      | (.error e, lg2) => (.error e, lg ++ lg2)
      | (.ok q, lg2) => (.ok (f p q), lg ++ lg2)

/-- Sequence three compiled subexpressions. -/
def seq3 (x : Except String MCPayoff × List String)
    (y z : Unit → Except String MCPayoff × List String)
    (f : MCPayoff → MCPayoff → MCPayoff → MCPayoff) : Except String MCPayoff × List String :=
  match x with
  | (.error e, lg) => (.error e, lg)
  | (.ok p, lg) =>
      match y () with
      | (.error e, lg2) => (.error e, lg ++ lg2)
      | (.ok q, lg2) =>
          match z () with
          | (.error e, lg3) => (.error e, lg ++ lg2 ++ lg3)
          | (.ok r, lg3) => (.ok (f p q r), lg ++ lg2 ++ lg3)

/-- Model of `MCScriptT::payoff(tree, k)`: convert an abstract expression tree into a
payoff node.  Each case first validates the fixed child/leaf arity of the
tag (`hasChilds`, `hasLeafs`, whose failure messages are logged before the
`QL_FAIL`), then builds the node.  The null-tree entry guard of the C++
method cannot arise here (trees are values), and the `if (!p)` guards after
`p->at(...)` model the external call as always returning a node. -/
def payoffE (today : Int) (m : PayoffMap) (k : Nat) : Expression → Except String MCPayoff × List String
  | .mk .NUMBER cs ls =>
      match cs, ls with
      | [], [l] =>
          match to_Number l with
          | some x => (.ok (.FixedAmount x), [])
          | none => (.error qlFailMsg, [convErrMsg k l])
      | _, _ => (.error qlFailMsg,
          if cs.length ≠ 0 then [childsExpectedMsg k 0 cs.length]
          else [leafsExpectedMsg k 1 cs.length])
  | .mk .IDENTIFIER cs ls =>
      match cs, ls with
      | [], [l] =>
          match mapFind m l with
          | some p => (.ok p, [inMapMsg k l])
          | none => (.error qlFailMsg, [noPayoffMsg k l])
      | _, _ => (.error qlFailMsg,
          if cs.length ≠ 0 then [childsExpectedMsg k 0 cs.length]
          else [leafsExpectedMsg k 1 cs.length])
  | .mk .UNARYPLUS cs ls =>
      match cs, ls with
      | [c], [] => payoffE today m k c
      | _, _ => (.error qlFailMsg,
          if cs.length ≠ 1 then [childsExpectedMsg k 1 cs.length]
          else [leafsExpectedMsg k 0 cs.length])
  | .mk .UNARYMINUS cs ls =>
      match cs, ls with
      | [c], [] =>
          match payoffE today m k c with
          | (.error e, lg) => (.error e, lg)
          | (.ok p, lg) => (.ok (.Axpy (-1) p none), lg)
      | _, _ => (.error qlFailMsg,
          if cs.length ≠ 1 then [childsExpectedMsg k 1 cs.length]
          else [leafsExpectedMsg k 0 cs.length])
  | .mk .PLUS cs ls =>
      match cs, ls with
      | [a, b], [] =>
          seq2 (payoffE today m k a) (fun _ => payoffE today m k b)
            (fun p q => .Axpy 1 p (some q))
      | _, _ => (.error qlFailMsg,
          if cs.length ≠ 2 then [childsExpectedMsg k 2 cs.length]
          else [leafsExpectedMsg k 0 cs.length])
  | .mk .MINUS cs ls =>
      match cs, ls with
      | [a, b], [] =>
          seq2 (payoffE today m k b) (fun _ => payoffE today m k a)
            (fun q p => .Axpy (-1) q (some p))
      | _, _ => (.error qlFailMsg,
          if cs.length ≠ 2 then [childsExpectedMsg k 2 cs.length]
          else [leafsExpectedMsg k 0 cs.length])
  | .mk .MULT cs ls =>
      match cs, ls with
      | [a, b], [] =>
          seq2 (payoffE today m k a) (fun _ => payoffE today m k b) .Mult
      | _, _ => (.error qlFailMsg,
          if cs.length ≠ 2 then [childsExpectedMsg k 2 cs.length]
          else [leafsExpectedMsg k 0 cs.length])
  | .mk .DIVISION cs ls =>
      match cs, ls with
      | [a, b], [] =>
          seq2 (payoffE today m k a) (fun _ => payoffE today m k b) .Division
      | _, _ => (.error qlFailMsg,
          if cs.length ≠ 2 then [childsExpectedMsg k 2 cs.length]
          else [leafsExpectedMsg k 0 cs.length])
  | .mk .IFTHENELSE cs ls =>
      match cs, ls with
      | [a, b, c], [] =>
          seq3 (payoffE today m k a) (fun _ => payoffE today m k b)
            (fun _ => payoffE today m k c) .IfThenElse
      | _, _ => (.error qlFailMsg,
          if cs.length ≠ 3 then [childsExpectedMsg k 3 cs.length]
          else [leafsExpectedMsg k 0 cs.length])
  | .mk .MIN cs ls =>
      match cs, ls with
      | [a, b], [] =>
          seq2 (payoffE today m k a) (fun _ => payoffE today m k b) .Min
      | _, _ => (.error qlFailMsg,
          if cs.length ≠ 2 then [childsExpectedMsg k 2 cs.length]
          else [leafsExpectedMsg k 0 cs.length])
  | .mk .MAX cs ls =>
      match cs, ls with
      | [a, b], [] =>
          seq2 (payoffE today m k a) (fun _ => payoffE today m k b) .Max
      | _, _ => (.error qlFailMsg,
          if cs.length ≠ 2 then [childsExpectedMsg k 2 cs.length]
          else [leafsExpectedMsg k 0 cs.length])
  | .mk .LOGICAL cs ls =>
      match cs, ls with
      | [a, b], [l] =>
          seq2 (payoffE today m k a) (fun _ => payoffE today m k b)
            (fun p q => .Logical p q l)
      | _, _ => (.error qlFailMsg,
          if cs.length ≠ 2 then [childsExpectedMsg k 2 cs.length]
          else [leafsExpectedMsg k 1 cs.length])
  | .mk .PAY cs ls =>
      match cs, ls with
      | [c], [l] =>
          match to_Number l with
          | none => (.error qlFailMsg, [convErrMsg k l])
          | some t =>
              match payoffE today m k c with
              | (.error e, lg) => (.error e, lg)
              | (.ok p, lg) => (.ok (.Pay p t), lg)
      | _, _ => (.error qlFailMsg,
          if cs.length ≠ 1 then [childsExpectedMsg k 1 cs.length]
          else [leafsExpectedMsg k 1 cs.length])
  | .mk .PAY_WITHDATE cs ls =>
      match cs, ls with
      | [c], [l] =>
          match date_to_Number today l with
          | none => (.error qlFailMsg, [convErrMsg k l])
          | some t =>
              match payoffE today m k c with
              | (.error e, lg) => (.error e, lg)
              | (.ok p, lg) => (.ok (.Pay p t), lg)
      | _, _ => (.error qlFailMsg,
          if cs.length ≠ 1 then [childsExpectedMsg k 1 cs.length]
          else [leafsExpectedMsg k 1 cs.length])
  | .mk .CACHE cs ls =>
      match cs, ls with
      | [c], [] =>
          match payoffE today m k c with
          | (.error e, lg) => (.error e, lg)
          | (.ok p, lg) => (.ok (.Cache p), lg)
      | _, _ => (.error qlFailMsg,
          if cs.length ≠ 1 then [childsExpectedMsg k 1 cs.length]
          else [leafsExpectedMsg k 0 cs.length])
  | .mk .PAYOFFAT cs ls =>
      match cs, ls with
      | [c], [l] =>
          match to_Number l with
          | none => (.error qlFailMsg, [convErrMsg k l])
          | some t =>
              match payoffE today m k c with
              | (.error e, lg) => (.error e, lg)
              | (.ok p, lg) => (.ok (.At p t), lg)
      | _, _ => (.error qlFailMsg,
          if cs.length ≠ 1 then [childsExpectedMsg k 1 cs.length]
          else [leafsExpectedMsg k 1 cs.length])
  | .mk .PAYOFFAT_WITHDATE cs ls =>
      match cs, ls with
      | [c], [l] =>
          match date_to_Number today l with
          | none => (.error qlFailMsg, [convErrMsg k l])
          | some t =>
              match payoffE today m k c with
              | (.error e, lg) => (.error e, lg)
              | (.ok p, lg) => (.ok (.At p t), lg)
      | _, _ => (.error qlFailMsg,
          if cs.length ≠ 1 then [childsExpectedMsg k 1 cs.length]
          else [leafsExpectedMsg k 1 cs.length])
  | .mk .ASSIGNMENT _ _ => (.error qlFailMsg, [unknownExprMsg k])

/-! ## The script orchestrator, primary grammar
(`MCScriptT::parseFlexBisonScript`) -/

/-- A name for an expression tag, used only for the debug serialization. -/
def exprTypeName : ExprType → String
  | .NUMBER => "NUMBER"
  | .IDENTIFIER => "IDENTIFIER"
  | .UNARYPLUS => "UNARYPLUS"
  | .UNARYMINUS => "UNARYMINUS"
  | .PLUS => "PLUS"
  | .MINUS => "MINUS"
  | .MULT => "MULT"
  | .DIVISION => "DIVISION"
  | .IFTHENELSE => "IFTHENELSE"
  | .MIN => "MIN"
  | .MAX => "MAX"
  | .LOGICAL => "LOGICAL"
  | .PAY => "PAY"
  | .PAY_WITHDATE => "PAY_WITHDATE"
  | .CACHE => "CACHE"
  | .PAYOFFAT => "PAYOFFAT"
  | .PAYOFFAT_WITHDATE => "PAYOFFAT_WITHDATE"
  | .ASSIGNMENT => "ASSIGNMENT"

/-- Modelled from the spec: `Expression::toString` (the external debug
serialization recorded in `expressions_`; `scripting/expression.hpp` is not
among the sources).  No claim depends on its exact text. -/
def Expression.toStr : Expression → String
  | .mk t cs ls =>
      exprTypeName t ++ "(" ++
        String.intercalate "," (cs.attach.map (fun c => Expression.toStr c.1)) ++ "|" ++
        String.intercalate "," ls ++ ")"
termination_by e => sizeOf e
decreasing_by
  have h := List.sizeOf_lt_of_mem c.2
  simp only [Expression.mk.sizeOf_spec]
  omega

/-- The outcome of the external `Scripting::FlexBisonDriver` on one line:
`returnValue()` (0 on success), `expressionTree()` (possibly null), and
`errorMsg()`. -/
structure ParseResult where
  returnValue : Int
  tree : Option Expression
  errorMsg : String

/-- The mutable state of a script compilation: the symbol table `payoffs_`,
the serialized trees `expressions_`, and the diagnostics `scriptLog_`. -/
structure ScriptState where
  payoffs : PayoffMap
  expressions : List String
  scriptLog : List String

/-- Lines 371–382 of `parseFlexBisonScript`: store a successfully compiled
payoff `p` under the target name `v` — insert when absent, replace when
present and overwriting is allowed, otherwise log an error and leave the
table unchanged. -/
def bindVar (ow : Bool) (s : ScriptState) (v : String) (p : MCPayoff)
    (line : String) (k : Nat) : ScriptState :=
  match mapFind s.payoffs v with
  | none =>
      { s with payoffs := mapInsert s.payoffs v p,
               scriptLog := s.scriptLog ++
                 ["Insert line " ++ toString k ++ (": '" ++ line ++ "'")] }
  | some _ =>
      if ow then
        { s with payoffs := mapReplace s.payoffs v p,
                 scriptLog := s.scriptLog ++
                   ["Replace line " ++ toString k ++ (": '" ++ line ++ "'")] }
      else
        { s with scriptLog := s.scriptLog ++
            ["Error line " ++ toString k ++ (": Cannot replace line '" ++ line ++ "'")] }

/-- One iteration of the `parseFlexBisonScript` loop on line `line` with
index `k`.  The driver is passed as an oracle `parse` (the spec treats the
line parser as an external black box).  Mirrors the control flow of lines
336–387: record the serialized tree whenever one is present; on parser
failure log the driver's message; otherwise validate the assignment shape,
compile the right-hand side (exceptions from `payoff` are caught and
logged), require a non-empty target name, and bind.  The C++ `if (!p)`
null check after a non-throwing compilation cannot arise in the model. -/
def stepFB (parse : String → ParseResult) (today : Int) (ow : Bool)
    (s : ScriptState) (line : String) (k : Nat) : ScriptState :=
  let d := parse line
  let s1 := match d.tree with
    | some t => { s with expressions := s.expressions ++
        ["L" ++ toString k ++ (":" ++ t.toStr)] }
    | none => s
  if d.returnValue = 0 then
    match d.tree with
    | none =>
        { s1 with scriptLog := s1.scriptLog ++
            ["Error line " ++ toString k ++ ": Empty expression tree."] }
    | some t =>
        if t.type ≠ .ASSIGNMENT then
          { s1 with scriptLog := s1.scriptLog ++
              ["Error line " ++ toString k ++ ": Assignment expected."] }
        else
          match t.childs, t.leafs with
          | [c], [v] =>
              match payoffE today s1.payoffs k c with
              | (.error e, lg) =>
                  { s1 with scriptLog := (s1.scriptLog ++ lg) ++
                      ["Error line " ++ toString k ++ (": Exception caught: " ++ e)] }
              | (.ok p, lg) =>
                  let s2 := { s1 with scriptLog := s1.scriptLog ++ lg }
                  if v = "" then
                    { s2 with scriptLog := s2.scriptLog ++
                        ["Error line " ++ toString k ++ ": Non-empty identifier expected."] }
                  else bindVar ow s2 v p line k
          | cs, _ =>
              if cs.length ≠ 1 then
                { s1 with scriptLog := s1.scriptLog ++ [childsExpectedMsg k 1 cs.length] }
              else
                { s1 with scriptLog := s1.scriptLog ++ [leafsExpectedMsg k 1 cs.length] }
  else
    { s1 with scriptLog := s1.scriptLog ++
        ["Error line " ++ toString k ++ (": " ++ d.errorMsg)] }

/-- The `parseFlexBisonScript` loop from line index `k` on. -/
def parseFBFrom (parse : String → ParseResult) (today : Int) (ow : Bool) :
    List String → ScriptState → Nat → ScriptState
  | [], s, _ => s
  | l :: rest, s, k => parseFBFrom parse today ow rest (stepFB parse today ow s l k) (k + 1)

/-! ## The legacy regex grammar (`MCScriptT::parseScript`)

Each `boost::regex` of the C++ code is modelled by a dedicated matcher with
`regex_match` (full-string) semantics, greedy `(.+)` groups with
backtracking, and the alternation order of the source pattern. -/

/-- Model of `boost::regex_replace(line, boost::regex(" "), "")`: remove all spaces. -/
def removeSpaces (s : String) : String := String.mk (s.toList.filter (· ≠ ' '))

/-- The pattern `([a-zA-Z][a-zA-Z0-9]*)(=)(.+)`: a leading identifier, `=`,
and a non-empty remainder.  Since `=` is not alphanumeric the greedy first
group is exactly the maximal leading alphanumeric run. -/
def matchAssignment (s : String) : Option (String × String) :=
  match s.toList with
  | [] => none
  | c :: rest =>
      if c.isAlpha then
        match rest.dropWhile Char.isAlphanum with
        | '=' :: e =>
            if e.isEmpty then none
            else some (String.mk (c :: rest.takeWhile Char.isAlphanum), String.mk e)
        | _ => none
      else none

/-- The pattern `(\+|-)(.+)`: a leading sign and a non-empty remainder. -/
def matchUnary (s : String) : Option (String × String) :=
  match s.toList with
  | c :: rest =>
      if (c = '+' || c = '-') && !rest.isEmpty then
        some (String.mk [c], String.mk rest)
      else none
  | [] => none

/-- The binary operator alternatives, in the order of the source pattern
`(\+|-|\*|==|!=|<=|<|>=|>|&&|\|\|)`. -/
def binOpList : List String := ["+", "-", "*", "==", "!=", "<=", "<", ">=", ">", "&&", "||"]

/-- The pattern `(.+)(\+|-|\*|==|!=|<=|<|>=|>|&&|\|\|)(.+)`: the greedy first
group takes the longest prefix after which one of the alternatives (tried in
order) matches with a non-empty remainder. -/
def matchBinary (s : String) : Option (String × String × String) :=
  let cs := s.toList
  (List.range cs.length).reverse.findSome? fun i =>
    if 1 ≤ i then
      binOpList.findSome? fun op =>
        if op.toList.isPrefixOf (cs.drop i) ∧ i + op.length < cs.length then
          some (String.mk (cs.take i), op, String.mk (cs.drop (i + op.length)))
        else none
    else none

/-- The common shape `([a-zA-Z]+)\( ... \)` of the function patterns: the
greedy letter group is the maximal leading letter run, the next character
must be `(` and the last character must be `)`; returns the function name
and the interior characters. -/
def matchFnShape (s : String) : Option (String × List Char) :=
  let cs := s.toList
  let fn := cs.takeWhile Char.isAlpha
  match cs.dropWhile Char.isAlpha with
  | '(' :: inner =>
      if fn.isEmpty then none
      else if inner.getLast? = some ')' then some (String.mk fn, inner.dropLast)
      else none
  | _ => none

/-- Split `A,B` with both parts non-empty; the greedy `A` group picks the
last usable comma. -/
def splitLast2 (cs : List Char) : Option (List Char × List Char) :=
  (List.range cs.length).reverse.findSome? fun j =>
    if 1 ≤ j ∧ j + 1 < cs.length ∧ cs.getD j ' ' = ',' then
      some (cs.take j, cs.drop (j + 1))
    else none

/-- Split `A,B,C` with all parts non-empty; greedy from the left with
backtracking, as `boost::regex` does for `(.+),(.+),(.+)`. -/
def splitLast3 (cs : List Char) : Option (List Char × List Char × List Char) :=
  (List.range cs.length).reverse.findSome? fun j =>
    if 1 ≤ j ∧ cs.getD j ' ' = ',' then
      match splitLast2 (cs.drop (j + 1)) with
      | some (b, c) => some (cs.take j, b, c)
      | none => none
    else none

/-- The pattern `([a-zA-Z]+)\((.+),(.+),(.+)\)`. -/
def matchFn3 (s : String) : Option (String × String × String × String) :=
  match matchFnShape s with
  | some (fn, interior) =>
      match splitLast3 interior with
      | some (a, b, c) => some (fn, String.mk a, String.mk b, String.mk c)
      | none => none
  | none => none

/-- The pattern `([a-zA-Z]+)\((.+),(.+)\)`. -/
def matchFn2 (s : String) : Option (String × String × String) :=
  match matchFnShape s with
  | some (fn, interior) =>
      match splitLast2 interior with
      | some (a, b) => some (fn, String.mk a, String.mk b)
      | none => none
  | none => none

/-- The pattern `([a-zA-Z]+)\((.+)\)`. -/
def matchFn1 (s : String) : Option (String × String) :=
  match matchFnShape s with
  | some (fn, interior) =>
      if interior.isEmpty then none else some (fn, String.mk interior)
  | none => none

/-- The log entry for an operand that is no valid payoff. -/
def operandErrMsg (k : Nat) (o : String) : String :=
  "Error line " ++ toString k ++ (": '" ++ o ++ "' is no valid operand")

/-- The legacy `MCScriptT::payoff(string, lineNr)`: a fixed cash flow when
the text parses as a number, otherwise a symbol-table lookup; `none` models
the null pointer returned when both fail.  (The fixed-amount log entry
prints the parsed value via `boost::lexical_cast`; we render the rational
with `toString`, which agrees on the integer literals the claims use.) -/
def payoffStr (m : PayoffMap) (expr : String) (k : Nat) : Option MCPayoff × List String :=
  match to_Number expr with
  | some amount =>
      (some (.FixedAmount amount),
       ["Payoff line " ++ toString k ++ (": '" ++ toString amount ++ "' is fixed amount")])
  | none =>
      match mapFind m expr with
      | some p => (some p, [inMapMsg k expr])
      | none => (none, [noPayoffMsg k expr])

/-- Legacy unary operators (`MCScriptT::operator1`). -/
def operator1 (m : PayoffMap) (opname operand : String) (k : Nat) :
    Option MCPayoff × List String :=
  match payoffStr m operand k with
  | (none, lg) => (none, lg ++ [operandErrMsg k operand])
  | (some p, lg) =>
      if opname = "+" then (some p, lg)
      else if opname = "-" then (some (.Axpy (-1) p none), lg)
      else (none, lg ++ ["Error line " ++ toString k ++
        (": '" ++ opname ++ "' is no valid unary operator name")])

/-- Legacy binary operators (`MCScriptT::operator2`). -/
def operator2 (m : PayoffMap) (opname o1 o2 : String) (k : Nat) :
    Option MCPayoff × List String :=
  match payoffStr m o1 k with
  | (none, lg) => (none, lg ++ [operandErrMsg k o1])
  | (some p1, lg1) =>
      match payoffStr m o2 k with
      | (none, lg2) => (none, lg1 ++ lg2 ++ [operandErrMsg k o2])
      | (some p2, lg2) =>
          if opname = "+" then (some (.Axpy 1 p1 (some p2)), lg1 ++ lg2)
          else if opname = "-" then (some (.Axpy (-1) p2 (some p1)), lg1 ++ lg2)
          else if opname = "*" then (some (.Mult p1 p2), lg1 ++ lg2)
          else if opname = "==" || opname = "!=" || opname = "<" || opname = "<=" ||
                  opname = ">" || opname = ">=" || opname = "&&" || opname = "||" then
            (some (.Logical p1 p2 opname), lg1 ++ lg2)
          else (none, lg1 ++ lg2 ++ ["Error line " ++ toString k ++
            (": '" ++ opname ++ "' is no valid binary operator name")])

/-- Legacy single-operand functions (`MCScriptT::function1`). -/
def function1 (m : PayoffMap) (fname operand : String) (k : Nat) :
    Option MCPayoff × List String :=
  match payoffStr m operand k with
  | (none, lg) => (none, lg ++ [operandErrMsg k operand])
  | (some p, lg) =>
      if fname = "Cache" then (some (.Cache p), lg)
      else (none, lg ++ ["Error line " ++ toString k ++
        (": '" ++ fname ++ "' is no valid unary function name")])

/-- Legacy dual-operand functions (`MCScriptT::function2`). -/
def function2 (m : PayoffMap) (fname o1 o2 : String) (k : Nat) :
    Option MCPayoff × List String :=
  match payoffStr m o1 k with
  | (none, lg) => (none, lg ++ [operandErrMsg k o1])
  | (some p1, lg1) =>
      match payoffStr m o2 k with
      | (none, lg2) => (none, lg1 ++ lg2 ++ [operandErrMsg k o2])
      | (some p2, lg2) =>
          if fname = "Min" then (some (.Min p1 p2), lg1 ++ lg2)
          else if fname = "Max" then (some (.Max p1 p2), lg1 ++ lg2)
          else if fname = "Pay" then
            match to_Number o2 with
            | some t => (some (.Pay p1 t), lg1 ++ lg2)
            | none => (some (.Pay p1 p2.observationTime), lg1 ++ lg2)
          else (none, lg1 ++ lg2 ++ ["Error line " ++ toString k ++
            (": '" ++ fname ++ "' is no valid binary function name")])

/-- Legacy three-operand functions (`MCScriptT::function3`). -/
def function3 (m : PayoffMap) (fname o1 o2 o3 : String) (k : Nat) :
    Option MCPayoff × List String :=
  match payoffStr m o1 k with
  | (none, lg) => (none, lg ++ [operandErrMsg k o1])
  | (some p1, lg1) =>
      match payoffStr m o2 k with
      | (none, lg2) => (none, lg1 ++ lg2 ++ [operandErrMsg k o2])
      | (some p2, lg2) =>
          match payoffStr m o3 k with
          | (none, lg3) => (none, lg1 ++ lg2 ++ lg3 ++ [operandErrMsg k o3])
          | (some p3, lg3) =>
              if fname = "IfThenElse" then (some (.IfThenElse p1 p2 p3), lg1 ++ lg2 ++ lg3)
              else (none, lg1 ++ lg2 ++ lg3 ++ ["Error line " ++ toString k ++
                (": '" ++ fname ++ "' is no valid function name")])

/-- The expression dispatch of `parseScript` (lines 432–447): unary operator,
binary operator, ternary/binary/unary function, and the plain-payoff
fall-back, tried in this order. -/
def compileLegacyExpr (m : PayoffMap) (expr : String) (k : Nat) :
    Option MCPayoff × List String :=
  match matchUnary expr with
  | some (op, operand) => operator1 m op operand k
  | none =>
      match matchBinary expr with
      | some (o1, op, o2) => operator2 m op o1 o2 k
      | none =>
          match matchFn3 expr with
          | some (fn, a, b, c) => function3 m fn a b c k
          | none =>
              match matchFn2 expr with
              | some (fn, a, b) => function2 m fn a b k
              | none =>
                  match matchFn1 expr with
                  | some (fn, a) => function1 m fn a k
                  | none => payoffStr m expr k

/-- Lines 455–467 of `parseScript`: store a compiled legacy payoff (note the
legacy "can not be replaced" wording of the error entry). -/
def bindVarLegacy (ow : Bool) (s : ScriptState) (v : String) (p : MCPayoff)
    (line : String) (k : Nat) : ScriptState :=
  match mapFind s.payoffs v with
  | none =>
      { s with payoffs := mapInsert s.payoffs v p,
               scriptLog := s.scriptLog ++
                 ["Insert line " ++ toString k ++ (": '" ++ line ++ "'")] }
  | some _ =>
      if ow then
        { s with payoffs := mapReplace s.payoffs v p,
                 scriptLog := s.scriptLog ++
                   ["Replace line " ++ toString k ++ (": '" ++ line ++ "'")] }
      else
        { s with scriptLog := s.scriptLog ++
            ["Error line " ++ toString k ++ (": '" ++ v ++ "' can not be replaced")] }

/-- One iteration of the `parseScript` loop on (raw) line `raw` with index
`k`: strip spaces, require an assignment shape, compile the right-hand
side, and bind. -/
def stepLegacy (ow : Bool) (s : ScriptState) (raw : String) (k : Nat) : ScriptState :=
  let line := removeSpaces raw
  match matchAssignment line with
  | none =>
      { s with scriptLog := s.scriptLog ++
          ["Error line " ++ toString k ++ (": '" ++ line ++ "' is no valid assignment")] }
  | some (v, expr) =>
      match compileLegacyExpr s.payoffs expr k with
      | (none, lg) =>
          { s with scriptLog := (s.scriptLog ++ lg) ++
              ["Error line " ++ toString k ++ (": '" ++ expr ++ "' is no valid expression")] }
      | (some p, lg) =>
          bindVarLegacy ow { s with scriptLog := s.scriptLog ++ lg } v p line k

/-- The `parseScript` loop from line index `k` on.  (The grammar help text
appended when the whole script is empty is irrelevant to the claims and not
modelled.) -/
def parseLegacyFrom (ow : Bool) : List String → ScriptState → Nat → ScriptState
  | [], s, _ => s
  | l :: rest, s, k => parseLegacyFrom ow rest (stepLegacy ow s l k) (k + 1)

/-! ## The constructor (`MCScriptT::MCScriptT`) -/

/-- The initial-binding loop of the constructor (lines 44–52): insert each
`(key, payoff)` pair, failing with `QL_REQUIRE(overwrite, ...)` when a key
is already present and overwriting is disallowed. -/
def initLoop (ow : Bool) : List (String × MCPayoff) → PayoffMap → Except String PayoffMap
  | [], m => .ok m
  | (k, p) :: rest, m =>
      match mapFind m k with
      | none => initLoop ow rest (mapInsert m k p)
      | some _ =>
          if ow then initLoop ow rest (mapReplace m k p)
          else .error "MCScript error: overwrite not allowed"

/-- The value computed by `initLoop` whenever it succeeds (the same loop
with the overwrite guard dropped). -/
def initMap : List (String × MCPayoff) → PayoffMap → PayoffMap
  | [], m => m
  | (k, p) :: rest, m =>
      match mapFind m k with
      | none => initMap rest (mapInsert m k p)
      | some _ => initMap rest (mapReplace m k p)

/-- Lines 53–57: dispatch on the `"NonRecursive"` sentinel in the first
script line; the legacy regex grammar parses the whole script (including
the sentinel line itself), otherwise the flex/bison grammar does. -/
def processScript (parse : String → ParseResult) (today : Int) (ow : Bool)
    (script : List String) (s : ScriptState) : ScriptState :=
  if script.head? = some "NonRecursive" then parseLegacyFrom ow script s 0
  else parseFBFrom parse today ow script s 0

/-- A fully constructed `MCScriptT` object: the final state plus the
designated result payoff. -/
structure MCScriptRec where
  state : ScriptState
  result : MCPayoff

/-- The `MCScriptT` constructor: validate the parallel key/payoff lists,
populate the symbol table, run the script dialect selected by the sentinel,
require a non-empty table, and designate the result payoff — the binding of
`"payoff"` when present, otherwise `payoffs_.rbegin()`, the last entry of
the key-sorted map. -/
def mcScript (parse : String → ParseResult) (today : Int) (keys : List String)
    (pfs : List MCPayoff) (script : List String) (ow : Bool) : Except String MCScriptRec :=
  if keys.length ≠ pfs.length then .error "MCScript error: key vs. value size missmatch"
  else
    match initLoop ow (keys.zip pfs) [] with
    | .error e => .error e
    | .ok m0 =>
        let s1 := processScript parse today ow script ⟨m0, [], []⟩
        match s1.payoffs with
        | [] => .error "MCScript error: no payoffs stored."
        | q :: qs =>
            match mapFind s1.payoffs "payoff" with
            | some p => .ok ⟨s1, p⟩
            | none => .ok ⟨s1, ((q :: qs).getLast (by simp)).2⟩

/-! ## Batch valuation (`MCScriptT::findPayoffs`, `MCScriptT::NPV`) -/

/-- Model of `MCScriptT::findPayoffs(keys)` with `throwException = true`: resolve
every requested name in the symbol table, failing with `QL_FAIL` at the
first absent name. -/
def findPayoffs (m : PayoffMap) : List String → Except String (List MCPayoff)
  | [] => .ok []
  | key :: keys =>
      match mapFind m key with
      | some p =>
          match findPayoffs m keys with
          | .ok ps => .ok (p :: ps)
          | .error e => .error e
      | none => .error ("MCScript error: payoff '" ++ key ++ "' not found")

/-- Model of `MCScriptT::NPV(simulation, keys)`: resolve all names first, then for
each path accumulate each payoff's discounted value, and finally divide by
the number of paths.  The external simulation is a list of paths (of an
arbitrary type `P`) and `disc` models the external
`payoff->discountedAt(path)`. -/
def NPV {P : Type} (m : PayoffMap) (paths : List P) (disc : MCPayoff → P → Rat)
    (keys : List String) : Except String (List Rat) :=
  match findPayoffs m keys with
  | .error e => .error e
  | .ok ps =>
      let sums := paths.foldl
        (fun npv pth => List.zipWith (fun a pf => a + disc pf pth) npv ps)
        (ps.map fun _ => (0 : Rat))
      .ok (sums.map (· / (paths.length : Rat)))

/-! ## Symbol-table lemmas -/

theorem mapFind_insert_self {m : PayoffMap} {k : String} (p : MCPayoff)
    (h : mapFind m k = none) : mapFind (mapInsert m k p) k = some p := by
  induction m with
  | nil => simp [mapInsert, mapFind]
  | cons a rest ih =>
      obtain ⟨a1, a2⟩ := a
      simp only [mapFind] at h
      by_cases hak : a1 = k
      · simp [hak] at h
      · simp only [if_neg hak] at h
        simp only [mapInsert]
        by_cases hlt : k.data < a1.data
        · simp [hlt, mapFind]
        · simp [hlt, mapFind, hak, ih h]

theorem mapFind_insert_ne {m : PayoffMap} {k k' : String} (p : MCPayoff)
    (h : k' ≠ k) : mapFind (mapInsert m k p) k' = mapFind m k' := by
  induction m with
  | nil => simp [mapInsert, mapFind, Ne.symm h]
  | cons a rest ih =>
      obtain ⟨a1, a2⟩ := a
      simp only [mapInsert]
      by_cases hlt : k.data < a1.data
      · simp [hlt, mapFind, Ne.symm h]
      · simp only [if_neg hlt, mapFind]
        by_cases hak : a1 = k'
        · simp [hak]
        · simp [hak, ih]

theorem mem_mapInsert {m : PayoffMap} {k : String} {p : MCPayoff}
    {e : String × MCPayoff} (h : e ∈ mapInsert m k p) : e ∈ m ∨ e = (k, p) := by
  induction m with
  | nil => simp [mapInsert] at h; simp [h]
  | cons a rest ih =>
      simp only [mapInsert] at h
      by_cases hlt : k.data < a.1.data
      · simp only [if_pos hlt, List.mem_cons] at h
        rcases h with h | h | h
        · right; exact h
        · left; simp [h]
        · left; simp [h]
      · simp only [if_neg hlt, List.mem_cons] at h
        rcases h with h | h
        · left; simp [h]
        · rcases ih h with h2 | h2
          · left; simp [h2]
          · right; exact h2

theorem mapFind_eq_none_iff {m : PayoffMap} {k : String} :
    mapFind m k = none ↔ ∀ e ∈ m, e.1 ≠ k := by
  induction m with
  | nil => simp [mapFind]
  | cons a rest ih =>
      simp only [mapFind, List.mem_cons]
      by_cases hak : a.1 = k
      · constructor
        · intro h; simp [hak] at h
        · intro h; exact absurd hak (h a (Or.inl rfl))
      · simp only [if_neg hak, ih]
        constructor
        · intro h e he
          rcases he with he | he
          · subst he; exact hak
          · exact h e he
        · intro h e he; exact h e (Or.inr he)

theorem mapFind_replace_self {m : PayoffMap} {k : String} {q : MCPayoff} (p : MCPayoff)
    (h : mapFind m k = some q) : mapFind (mapReplace m k p) k = some p := by
  induction m with
  | nil => simp [mapFind] at h
  | cons a rest ih =>
      obtain ⟨a1, a2⟩ := a
      simp only [mapFind] at h
      simp only [mapReplace]
      by_cases hak : a1 = k
      · simp [hak, mapFind]
      · simp only [if_neg hak] at h
        simp [hak, mapFind, ih h]

theorem mapReplace_keys (m : PayoffMap) (k : String) (p : MCPayoff) :
    (mapReplace m k p).map Prod.fst = m.map Prod.fst := by
  induction m with
  | nil => simp [mapReplace]
  | cons a rest ih =>
      obtain ⟨a1, a2⟩ := a
      simp only [mapReplace]
      by_cases hak : a1 = k
      · simp [hak]
      · simp [hak, ih]

theorem keySorted_insert {m : PayoffMap} {k : String} (p : MCPayoff)
    (hs : keySorted m) (h : mapFind m k = none) : keySorted (mapInsert m k p) := by
  induction m with
  | nil => simp [keySorted, mapInsert]
  | cons a rest ih =>
      obtain ⟨a1, a2⟩ := a
      simp only [mapFind] at h
      by_cases hak : a1 = k
      · simp [hak] at h
      · simp only [if_neg hak] at h
        simp only [keySorted, List.pairwise_cons] at hs
        simp only [mapInsert]
        by_cases hlt : k.data < a1.data
        · simp only [if_pos hlt, keySorted, List.pairwise_cons]
          have hlt2 : k < a1 := String.lt_iff_toList_lt.mpr hlt
          refine ⟨?_, hs.1, hs.2⟩
          intro e he
          rcases List.mem_cons.mp he with he | he
          · subst he; exact hlt2
          · exact lt_trans hlt2 (hs.1 e he)
        · simp only [if_neg hlt, keySorted, List.pairwise_cons]
          have halt : a1 < k := by
            rcases lt_trichotomy k a1 with h1 | h1 | h1
            · exact absurd (String.lt_iff_toList_lt.mp h1) hlt
            · exact absurd h1.symm hak
            · exact h1
          refine ⟨?_, ih hs.2 h⟩
          intro e he
          rcases mem_mapInsert he with he | he
          · exact hs.1 e he
          · subst he; exact halt

theorem keySorted_of_keys {m m' : PayoffMap}
    (hk : m'.map Prod.fst = m.map Prod.fst) (hs : keySorted m) : keySorted m' := by
  have h1 : (m.map Prod.fst).Pairwise (· < ·) := (List.pairwise_map).mpr hs
  have h2 : (m'.map Prod.fst).Pairwise (· < ·) := hk ▸ h1
  exact (List.pairwise_map).mp h2

theorem keySorted_replace {m : PayoffMap} (k : String) (p : MCPayoff)
    (hs : keySorted m) : keySorted (mapReplace m k p) :=
  keySorted_of_keys (mapReplace_keys m k p) hs

theorem keySorted_last_max {m : PayoffMap} (hs : keySorted m) (hne : m ≠ []) :
    ∀ e ∈ m, e.1 ≤ (m.getLast hne).1 := by
  induction m with
  | nil => exact absurd rfl hne
  | cons a rest ih =>
      intro e he
      cases rest with
      | nil =>
          rcases List.mem_cons.mp he with he | he
          · subst he; simp [List.getLast]
          · simp at he
      | cons b rest2 =>
          have hcons : (b :: rest2) ≠ [] := by simp
          rw [List.getLast_cons hcons]
          have hp := List.pairwise_cons.mp hs
          rcases List.mem_cons.mp he with he | he
          · subst he
            exact le_of_lt (hp.1 _ (List.getLast_mem hcons))
          · exact ih hp.2 hcons e he

/-! ## Claims -/

/-- C10: numeric-literal conversion succeeds on any string whose prefix
parses as a floating-point number, ignoring trailing characters: the leaf
text `"5abc"` converts successfully to the constant `5.0` rather than
failing, and such a number literal compiles to a constant payoff
(`FixedAmount 5`) instead of being rejected or treated as an identifier. -/
theorem C10_number_literal_prefix :
    to_Number "5abc" = some 5 ∧
    (∀ (today : Int) (m : PayoffMap) (k : Nat),
      payoffE today m k (.mk .NUMBER [] ["5abc"]) = (.ok (.FixedAmount 5), [])) := by
  have hp : stodParts ['5', 'a', 'b', 'c'] = some (1, 5, 0, 0, ['a', 'b', 'c']) := by decide
  have hn : to_Number "5abc" = some 5 := by
    simp [to_Number, stodCore, hp, stodVal]
  refine ⟨hn, fun today m k => ?_⟩
  simp [payoffE, hn]

/-- C5: date-token conversion succeeds exactly on length-9 strings whose
characters 0–1 parse as a day via `stol`, whose characters 2–4 are one of
the case-sensitive abbreviations `Jan..Dec`, and whose characters 5–8 parse
as a year via `stol`; on success it yields
`(serial(date) − serial(evaluation date)) / 365`.  Failure is reported as
`none`: the C++ helper catches all conversion exceptions internally and
returns `false` to the caller. -/
theorem C5_date_token :
    ∀ (today : Int) (s : String) (x : Rat),
      date_to_Number today s = some x ↔
        (s.length = 9 ∧ ∃ day year mo, stol (substr s 0 2) = some day ∧
          stol (substr s 5 4) = some year ∧ monthNumber (substr s 2 3) = some mo ∧
          x = ((daysFromCivil year mo day - today : Int) : Rat) / 365) := by
  intro today s x
  by_cases h9 : s.length = 9
  · rcases hd : stol (substr s 0 2) with _ | day <;>
    rcases hy : stol (substr s 5 4) with _ | year <;>
    rcases hm : monthNumber (substr s 2 3) with _ | mo <;>
      simp [date_to_Number, h9, hd, hy, hm, eq_comm]
  · simp [date_to_Number, h9]

/-- C7: in the expression compiler, a unary-minus node with one child and
zero leaves compiles to the child scaled by −1 with zero offset (a null
second `Axpy` argument); a binary minus node compiles to the linear
combination −1·child1 + child0; a binary plus node compiles to
1·child0 + child1; and a unary-plus node passes its child through
unchanged. -/
theorem C7_linear_operators :
    ∀ (today : Int) (m : PayoffMap) (k : Nat) (c c2 : Expression)
      (p p2 : MCPayoff) (lg lg2 : List String),
      payoffE today m k c = (.ok p, lg) →
      payoffE today m k c2 = (.ok p2, lg2) →
      payoffE today m k (.mk .UNARYMINUS [c] []) = (.ok (.Axpy (-1) p none), lg) ∧
      payoffE today m k (.mk .MINUS [c, c2] []) = (.ok (.Axpy (-1) p2 (some p)), lg2 ++ lg) ∧
      payoffE today m k (.mk .PLUS [c, c2] []) = (.ok (.Axpy 1 p (some p2)), lg ++ lg2) ∧
      payoffE today m k (.mk .UNARYPLUS [c] []) = (.ok p, lg) := by
  intro today m k c c2 p p2 lg lg2 h1 h2
  refine ⟨?_, ?_, ?_, ?_⟩ <;> simp [payoffE, seq2, h1, h2]

/-- Witness for C7: the four equations at the concrete children `1` and `2`. -/
theorem C7_linear_operators_witness :
    payoffE 0 [] 0 (.mk .UNARYMINUS [.mk .NUMBER [] ["1"]] []) =
      (.ok (.Axpy (-1) (.FixedAmount 1) none), []) ∧
    payoffE 0 [] 0 (.mk .MINUS [.mk .NUMBER [] ["1"], .mk .NUMBER [] ["2"]] []) =
      (.ok (.Axpy (-1) (.FixedAmount 2) (some (.FixedAmount 1))), []) ∧
    payoffE 0 [] 0 (.mk .PLUS [.mk .NUMBER [] ["1"], .mk .NUMBER [] ["2"]] []) =
      (.ok (.Axpy 1 (.FixedAmount 1) (some (.FixedAmount 2))), []) ∧
    payoffE 0 [] 0 (.mk .UNARYPLUS [.mk .NUMBER [] ["1"]] []) =
      (.ok (.FixedAmount 1), []) := by
  have h1 : payoffE 0 [] 0 (.mk .NUMBER [] ["1"]) = (.ok (.FixedAmount 1), []) := by
    have hp : stodParts ['1'] = some (1, 1, 0, 0, []) := by decide
    have : to_Number "1" = some 1 := by simp [to_Number, stodCore, hp, stodVal]
    simp [payoffE, this]
  have h2 : payoffE 0 [] 0 (.mk .NUMBER [] ["2"]) = (.ok (.FixedAmount 2), []) := by
    have hp : stodParts ['2'] = some (1, 2, 0, 0, []) := by decide
    have : to_Number "2" = some 2 := by simp [to_Number, stodCore, hp, stodVal]
    simp [payoffE, this]
  have h := C7_linear_operators 0 [] 0 _ _ _ _ _ _ h1 h2
  simpa using h

/-- C9: when the first script line equals the sentinel `"NonRecursive"`,
the constructor dispatches to the legacy parser, which still processes the
sentinel line itself as the statement at index 0; as it is not of the form
`name = expression`, an error diagnostic for line 0 is appended to the
script log, the table is untouched, and processing continues with the
remaining lines at index 1. -/
theorem C9_sentinel_processed_as_line0 :
    ∀ (parse : String → ParseResult) (today : Int) (ow : Bool) (rest : List String)
      (s : ScriptState),
      processScript parse today ow ("NonRecursive" :: rest) s =
        parseLegacyFrom ow ("NonRecursive" :: rest) s 0 ∧
      (stepLegacy ow s "NonRecursive" 0).scriptLog =
        s.scriptLog ++ ["Error line 0: 'NonRecursive' is no valid assignment"] ∧
      (stepLegacy ow s "NonRecursive" 0).payoffs = s.payoffs ∧
      parseLegacyFrom ow ("NonRecursive" :: rest) s 0 =
        parseLegacyFrom ow rest (stepLegacy ow s "NonRecursive" 0) 1 := by
  intro parse today ow rest s
  exact ⟨rfl, rfl, rfl, rfl⟩

/-! ## NPV lemmas -/

theorem findPayoffs_error_of_missing {m : PayoffMap} :
    ∀ {keys : List String}, (∃ key ∈ keys, mapFind m key = none) →
      ∃ e, findPayoffs m keys = .error e := by
  intro keys
  induction keys with
  | nil => rintro ⟨key, hk, _⟩; simp at hk
  | cons key keys ih =>
      rintro ⟨key', hk', hfind⟩
      rcases List.mem_cons.mp hk' with h | h
      · subst h
        rcases hf : mapFind m key' with _ | p
        · exact ⟨"MCScript error: payoff '" ++ key' ++ "' not found",
            by simp [findPayoffs, hf]⟩
        · rw [hf] at hfind; exact absurd hfind (by simp)
      · rcases hf : mapFind m key with _ | p
        · exact ⟨"MCScript error: payoff '" ++ key ++ "' not found",
            by simp [findPayoffs, hf]⟩
        · obtain ⟨e, he⟩ := ih ⟨key', h, hfind⟩
          exact ⟨e, by simp [findPayoffs, hf, he]⟩

theorem findPayoffs_ok_length {m : PayoffMap} :
    ∀ {keys : List String} {ps : List MCPayoff},
      findPayoffs m keys = .ok ps → ps.length = keys.length := by
  intro keys
  induction keys with
  | nil => intro ps h; simp [findPayoffs] at h; simp [← h]
  | cons key keys ih =>
      intro ps h
      rcases hf : mapFind m key with _ | p
      · simp [findPayoffs, hf] at h
      · rcases hrest : findPayoffs m keys with e | ps2
        · simp [findPayoffs, hf, hrest] at h
        · simp [findPayoffs, hf, hrest] at h
          simp [← h, ih hrest]

/-- Length invariant of the path-accumulation fold of `NPV`. -/
theorem npvFold_length {P : Type} (disc : MCPayoff → P → Rat) (ps : List MCPayoff) :
    ∀ (paths : List P) (acc : List Rat), acc.length = ps.length →
      (paths.foldl (fun npv pth => List.zipWith (fun a pf => a + disc pf pth) npv ps)
        acc).length = ps.length := by
  intro paths
  induction paths with
  | nil => intro acc h; simpa using h
  | cons pth rest ih =>
      intro acc h
      simp only [List.foldl_cons]
      exact ih _ (by simp [h])

/-- Element-wise closed form of the path-accumulation fold of `NPV`. -/
theorem npvFold_get {P : Type} (disc : MCPayoff → P → Rat) (ps : List MCPayoff) :
    ∀ (paths : List P) (acc : List Rat) (h : acc.length = ps.length)
      (i : Nat) (hi : i < ps.length),
      (paths.foldl (fun npv pth => List.zipWith (fun a pf => a + disc pf pth) npv ps)
          acc).get ⟨i, by rw [npvFold_length disc ps paths acc h]; exact hi⟩ =
        acc.get ⟨i, by rw [h]; exact hi⟩ +
          (paths.map fun pth => disc (ps.get ⟨i, hi⟩) pth).sum := by
  intro paths
  induction paths with
  | nil =>
      intro acc h i hi
      simp
  | cons pth rest ih =>
      intro acc h i hi
      have hlen : (List.zipWith (fun a pf => a + disc pf pth) acc ps).length = ps.length := by
        simp [h]
      have := ih (List.zipWith (fun a pf => a + disc pf pth) acc ps) hlen i hi
      simp only [List.foldl_cons]
      rw [this]
      have hz : (List.zipWith (fun a pf => a + disc pf pth) acc ps).get
          ⟨i, by rw [hlen]; exact hi⟩ =
          acc.get ⟨i, by rw [h]; exact hi⟩ + disc (ps.get ⟨i, hi⟩) pth := by
        simp [List.get_eq_getElem, List.getElem_zipWith]
      rw [hz]
      simp [add_assoc]

/-- C6: batch valuation resolves all requested names against the symbol
table before any path is evaluated — an absent name makes the whole call
fail (for every simulation and discounting oracle, with no partial
results) — and when all names resolve, each name's result is the sum of
that payoff's discounted value over all simulated paths divided by the
number of paths. -/
theorem C6_npv_fail_fast_and_average :
    ∀ {P : Type} (m : PayoffMap) (keys : List String) (paths : List P)
      (disc : MCPayoff → P → Rat),
      ((∃ key ∈ keys, mapFind m key = none) →
        ∃ e, NPV m paths disc keys = .error e) ∧
      (∀ ps, findPayoffs m keys = .ok ps →
        ∃ npvs, NPV m paths disc keys = .ok npvs ∧ npvs.length = keys.length ∧
          ∀ (i : Nat) (hi : i < ps.length) (hn : i < npvs.length),
            npvs.get ⟨i, hn⟩ =
              (paths.map fun pth => disc (ps.get ⟨i, hi⟩) pth).sum /
                (paths.length : Rat)) := by
  intro P m keys paths disc
  constructor
  · intro hmiss
    obtain ⟨e, he⟩ := findPayoffs_error_of_missing hmiss
    exact ⟨e, by simp [NPV, he]⟩
  · intro ps hok
    have hlen0 : (ps.map fun _ => (0 : Rat)).length = ps.length := by simp
    have hnpv : NPV m paths disc keys = .ok
        ((paths.foldl (fun npv pth => List.zipWith (fun a pf => a + disc pf pth) npv ps)
            (ps.map fun _ => (0 : Rat))).map (· / (paths.length : Rat))) := by
      simp [NPV, hok]
    refine ⟨_, hnpv, ?_, ?_⟩
    · rw [List.length_map, npvFold_length disc ps paths _ hlen0, findPayoffs_ok_length hok]
    · intro i hi hn
      have hfold := npvFold_get disc ps paths (ps.map fun _ => (0 : Rat)) hlen0 i hi
      have hz : (ps.map fun _ => (0 : Rat)).get ⟨i, by rw [hlen0]; exact hi⟩ = 0 := by
        simp
      rw [hz, zero_add] at hfold
      simp only [List.get_eq_getElem] at hfold ⊢
      simp only [List.getElem_map]
      rw [hfold]

/-- C4: binding a successfully compiled script line with target name `v`:
when `v` is unbound the pair is inserted and an Insert diagnostic logged;
when `v` is bound and overwriting is enabled the binding is replaced and a
Replace diagnostic logged; when `v` is bound and overwriting is disabled an
error diagnostic is logged and the previous binding is unchanged.  The last
conjunct connects this to the orchestrator: a line whose tree is a
well-formed assignment with a compiling right-hand side and non-empty
target reaches exactly this bind step. -/
theorem C4_bind_insert_replace_error :
    ∀ (ow : Bool) (s : ScriptState) (v : String) (p : MCPayoff) (line : String) (k : Nat),
      (mapFind s.payoffs v = none →
        (bindVar ow s v p line k).payoffs = mapInsert s.payoffs v p ∧
        mapFind (bindVar ow s v p line k).payoffs v = some p ∧
        (bindVar ow s v p line k).scriptLog =
          s.scriptLog ++ ["Insert line " ++ toString k ++ (": '" ++ line ++ "'")]) ∧
      (∀ q, mapFind s.payoffs v = some q → ow = true →
        (bindVar ow s v p line k).payoffs = mapReplace s.payoffs v p ∧
        mapFind (bindVar ow s v p line k).payoffs v = some p ∧
        (bindVar ow s v p line k).scriptLog =
          s.scriptLog ++ ["Replace line " ++ toString k ++ (": '" ++ line ++ "'")]) ∧
      (∀ q, mapFind s.payoffs v = some q → ow = false →
        (bindVar ow s v p line k).payoffs = s.payoffs ∧
        mapFind (bindVar ow s v p line k).payoffs v = some q ∧
        (bindVar ow s v p line k).scriptLog =
          s.scriptLog ++
            ["Error line " ++ toString k ++ (": Cannot replace line '" ++ line ++ "'")]) ∧
      (∀ (parse : String → ParseResult) (today : Int) (t : Expression) (c : Expression)
          (lg : List String),
        (parse line).returnValue = 0 → (parse line).tree = some t →
        t = .mk .ASSIGNMENT [c] [v] →
        payoffE today s.payoffs k c = (.ok p, lg) → v ≠ "" →
        stepFB parse today ow s line k =
          bindVar ow
            { s with
              expressions := s.expressions ++ ["L" ++ toString k ++ (":" ++ t.toStr)],
              scriptLog := s.scriptLog ++ lg } v p line k) := by
  intro ow s v p line k
  refine ⟨?_, ?_, ?_, ?_⟩
  · intro h
    refine ⟨by simp [bindVar, h], ?_, by simp [bindVar, h]⟩
    simp only [bindVar, h]
    exact mapFind_insert_self p h
  · intro q h how
    refine ⟨by simp [bindVar, h, how], ?_, by simp [bindVar, h, how]⟩
    simp only [bindVar, h, how, if_true]
    exact mapFind_replace_self p h
  · intro q h how
    subst how
    exact ⟨by simp [bindVar, h], by simp [bindVar, h], by simp [bindVar, h]⟩
  · intro parse today t c lg hrv htr ht hpe hv
    subst ht
    simp [stepFB, htr, hrv, hpe, hv, Expression.type, Expression.childs, Expression.leafs]

/-- The per-line failure conditions of `parseFlexBisonScript`: driver
failure, absent tree, non-assignment tree, wrong assignment arity,
right-hand-side compilation failure, empty target name, or a disallowed
overwrite of an existing binding. -/
def lineFailsFB (parse : String → ParseResult) (today : Int) (m : PayoffMap)
    (ow : Bool) (line : String) (k : Nat) : Prop :=
  (parse line).returnValue ≠ 0 ∨
  ((parse line).returnValue = 0 ∧ (parse line).tree = none) ∨
  (∃ t, (parse line).tree = some t ∧
    (t.type ≠ .ASSIGNMENT ∨
     t.childs.length ≠ 1 ∨ t.leafs.length ≠ 1 ∨
     (∃ c v, t.childs = [c] ∧ t.leafs = [v] ∧
       ((payoffE today m k c).1.isOk = false ∨
        v = "" ∨
        (mapFind m v ≠ none ∧ ow = false)))))

/-- C3: under the primary grammar, a failure at any per-line stage appends a
diagnostic carrying that line's 0-based index (every such diagnostic starts
with `"Error line k"`), and no failure aborts the processing of the
remaining lines: the loop over a concatenation of line blocks always equals
processing the first block and then the rest. -/
theorem C3_line_failure_logs_and_continues :
    ∀ (parse : String → ParseResult) (today : Int) (ow : Bool) (s : ScriptState)
      (line : String) (k : Nat),
      lineFailsFB parse today s.payoffs ow line k →
      (∃ rest, (stepFB parse today ow s line k).scriptLog.getLast? =
        some ("Error line " ++ toString k ++ rest)) ∧
      (∀ (xs ys : List String) (s0 : ScriptState) (j : Nat),
        parseFBFrom parse today ow (xs ++ ys) s0 j =
          parseFBFrom parse today ow ys (parseFBFrom parse today ow xs s0 j)
            (j + xs.length)) := by
  intro parse today ow s line k hfail
  constructor
  · rcases hd : parse line with ⟨rv, tr, em⟩
    by_cases hrv : rv = 0
    · subst hrv
      rcases tr with _ | t
      · refine ⟨": Empty expression tree.", ?_⟩
        simp [stepFB, hd]
      · rcases t with ⟨tt, tcs, tls⟩
        by_cases htt : tt = ExprType.ASSIGNMENT
        swap
        · refine ⟨": Assignment expected.", ?_⟩
          simp [stepFB, hd, Expression.type, htt]
        · subst htt
          match tcs, tls with
          | [c], [v] =>
              rcases hpe : payoffE today s.payoffs k c with ⟨r, lg⟩
              rcases r with e | p
              · refine ⟨": Exception caught: " ++ e, ?_⟩
                simp [stepFB, hd, Expression.type, Expression.childs, Expression.leafs, hpe]
              · by_cases hv : v = ""
                · subst hv
                  refine ⟨": Non-empty identifier expected.", ?_⟩
                  simp [stepFB, hd, Expression.type, Expression.childs, Expression.leafs, hpe]
                · -- the bind step: by `hfail` only the disallowed-overwrite case remains
                  have hcase : mapFind s.payoffs v ≠ none ∧ ow = false := by
                    rcases hfail with h1 | h1 | ⟨t', ht', h1⟩
                    · simp [hd] at h1
                    · simp [hd] at h1
                    · rw [hd] at ht'
                      simp only [Option.some.injEq] at ht'
                      subst ht'
                      simp only [Expression.type, Expression.childs, Expression.leafs] at h1
                      rcases h1 with h | h | h | ⟨c', v', hc', hv', h⟩
                      · exact absurd rfl h
                      · simp at h
                      · simp at h
                      · simp only [List.cons.injEq, and_true] at hc' hv'
                        subst hc'; subst hv'
                        rcases h with h | h | h
                        · rw [hpe] at h; simp [Except.isOk, Except.toBool] at h
                        · exact absurd h hv
                        · exact h
                  rcases hfind : mapFind s.payoffs v with _ | q
                  · exact absurd hfind hcase.1
                  · refine ⟨": Cannot replace line '" ++ line ++ "'", ?_⟩
                    simp [stepFB, hd, Expression.type, Expression.childs, Expression.leafs,
                      hpe, hv, bindVar, hfind, hcase.2]
          | [], tls =>
              refine ⟨": " ++ toString 1 ++ (" child expressions expected, but " ++
                toString 0 ++ " found."), ?_⟩
              simp [stepFB, hd, Expression.type, Expression.childs, Expression.leafs,
                childsExpectedMsg, String.append_assoc]
          | c1 :: c2 :: tcs, tls =>
              refine ⟨": " ++ toString 1 ++ (" child expressions expected, but " ++
                toString (c1 :: c2 :: tcs).length ++ " found."), ?_⟩
              simp [stepFB, hd, Expression.type, Expression.childs, Expression.leafs,
                childsExpectedMsg, String.append_assoc]
          | [c], [] =>
              refine ⟨": " ++ toString 1 ++ (" leafs expected, but " ++
                toString 1 ++ " found."), ?_⟩
              simp [stepFB, hd, Expression.type, Expression.childs, Expression.leafs,
                leafsExpectedMsg, String.append_assoc]
          | [c], v1 :: v2 :: tls =>
              refine ⟨": " ++ toString 1 ++ (" leafs expected, but " ++
                toString 1 ++ " found."), ?_⟩
              simp [stepFB, hd, Expression.type, Expression.childs, Expression.leafs,
                leafsExpectedMsg, String.append_assoc]
    · refine ⟨": " ++ em, ?_⟩
      simp [stepFB, hd, hrv]
  · intro xs ys s0 j
    induction xs generalizing s0 j with
    | nil => simp [parseFBFrom]
    | cons x xs ih =>
        simp only [List.cons_append, parseFBFrom, List.length_cons, List.append_eq]
        rw [ih]
        have harith : j + 1 + xs.length = j + (xs.length + 1) := by omega
        rw [harith]

/-- Witness for C3: a line the driver rejects appends a line-0 diagnostic
and the loop-composition law holds. -/
theorem C3_line_failure_witness :
    (∃ rest, (stepFB (fun _ => ⟨1, none, "syntax error"⟩) 0 true ⟨[], [], []⟩ "foo" 0).scriptLog.getLast? =
      some ("Error line " ++ toString 0 ++ rest)) ∧
    (∀ (xs ys : List String) (s0 : ScriptState) (j : Nat),
      parseFBFrom (fun _ => ⟨1, none, "syntax error"⟩) 0 true (xs ++ ys) s0 j =
        parseFBFrom (fun _ => ⟨1, none, "syntax error"⟩) 0 true ys
          (parseFBFrom (fun _ => ⟨1, none, "syntax error"⟩) 0 true xs s0 j)
          (j + xs.length)) :=
  C3_line_failure_logs_and_continues (fun _ => ⟨1, none, "syntax error"⟩) 0 true
    ⟨[], [], []⟩ "foo" 0 (Or.inl (by simp))

/-- A symbol table with `a`, `b`, `c` all bound, for exercising the legacy
grammar on a nested call. -/
def demoMap8 : PayoffMap :=
  [("a", .FixedAmount 1), ("b", .FixedAmount 2), ("c", .FixedAmount 3)]

/-- C8: under the legacy regex dialect an operand resolves exactly when it
is a numeric literal or a name bound in the symbol table; an unresolvable
operand makes the function/operator compilers fail; and in particular the
nested call line `x = Min(Max(a,b), c)` fails — even with `a`, `b`, `c` all
bound — leaving the table unchanged and logging the line as an error. -/
theorem C8_legacy_no_nested_operands :
    (∀ (m : PayoffMap) (e : String) (k : Nat),
      ((payoffStr m e k).1 = none ↔ (to_Number e = none ∧ mapFind m e = none))) ∧
    (∀ (m : PayoffMap) (fn o1 o2 : String) (k : Nat),
      (payoffStr m o1 k).1 = none → (function2 m fn o1 o2 k).1 = none) ∧
    ((stepLegacy true ⟨demoMap8, [], []⟩ "x = Min(Max(a,b), c)" 0).payoffs = demoMap8) ∧
    ((stepLegacy true ⟨demoMap8, [], []⟩ "x = Min(Max(a,b), c)" 0).scriptLog.getLast? =
      some ("Error line " ++ toString 0 ++ ": 'Min(Max(a,b),c)' is no valid expression")) := by
  refine ⟨?_, ?_, ?_, ?_⟩
  · intro m e k
    rcases hn : to_Number e with _ | x
    · rcases hf : mapFind m e with _ | p
      · simp [payoffStr, hn, hf]
      · simp [payoffStr, hn, hf]
    · simp [payoffStr, hn]
  · intro m fn o1 o2 k h
    rcases hps : payoffStr m o1 k with ⟨r, lg⟩
    rcases r with _ | p
    · simp [function2, hps]
    · rw [hps] at h; simp at h
  · rfl
  · rfl

/-! ## Constructor lemmas -/

theorem initLoop_true_ok : ∀ (l : List (String × MCPayoff)) (m : PayoffMap),
    initLoop true l m = .ok (initMap l m) := by
  intro l
  induction l with
  | nil => intro m; rfl
  | cons a rest ih =>
      intro m
      obtain ⟨key, p⟩ := a
      rcases hf : mapFind m key with _ | q
      · simp [initLoop, initMap, hf, ih]
      · simp [initLoop, initMap, hf, ih]

theorem initLoop_ok_val : ∀ (ow : Bool) (l : List (String × MCPayoff)) (m m' : PayoffMap),
    initLoop ow l m = .ok m' → m' = initMap l m := by
  intro ow l
  induction l with
  | nil => intro m m' h; simp [initLoop] at h; simp [initMap, ← h]
  | cons a rest ih =>
      intro m m' h
      obtain ⟨key, p⟩ := a
      rcases hf : mapFind m key with _ | q
      · simp only [initLoop, hf] at h
        simpa [initMap, hf] using ih _ _ h
      · simp only [initLoop, hf] at h
        cases ow with
        | true => simpa [initMap, hf] using ih _ _ (by simpa using h)
        | false => simp at h

theorem initLoop_isOk : ∀ (ow : Bool) (l : List (String × MCPayoff)) (m : PayoffMap),
    (initLoop ow l m).isOk = true ↔
      (ow = true ∨ ((l.map Prod.fst).Nodup ∧ ∀ key ∈ l.map Prod.fst, mapFind m key = none)) := by
  intro ow l
  induction l with
  | nil => intro m; simp [initLoop, Except.isOk, Except.toBool]
  | cons a rest ih =>
      intro m
      obtain ⟨key, p⟩ := a
      rcases hf : mapFind m key with _ | q
      · simp only [initLoop, hf]
        rw [ih]
        cases ow with
        | true => simp
        | false =>
            simp only [List.map_cons, List.nodup_cons, List.mem_cons]
            constructor
            · rintro (h | ⟨hnd, hall⟩)
              · simp at h
              · refine Or.inr ⟨⟨?_, hnd⟩, ?_⟩
                · intro hmem
                  have := hall key hmem
                  rw [mapFind_insert_self p hf] at this
                  simp at this
                · rintro key' (h | h)
                  · subst h; exact hf
                  · have := hall key' h
                    by_cases hkk : key' = key
                    · subst hkk; exact hf
                    · rwa [mapFind_insert_ne p hkk] at this
            · rintro (h | ⟨⟨hni, hnd⟩, hall⟩)
              · simp at h
              · refine Or.inr ⟨hnd, ?_⟩
                intro key' h
                have hkk : key' ≠ key := fun he => hni (he ▸ h)
                rw [mapFind_insert_ne p hkk]
                exact hall key' (Or.inr h)
      · simp only [initLoop, hf]
        cases ow with
        | true => simp [initLoop_true_ok, Except.isOk, Except.toBool]
        | false =>
            rw [if_neg (show ¬(false = true) by decide)]
            simp only [Except.isOk, Except.toBool]
            constructor
            · intro h; simp at h
            · rintro (h | ⟨hnd, hall⟩)
              · simp at h
              · have := hall key (by simp)
                rw [hf] at this
                simp at this

/-- Unfolding of the constructor when the initial-binding loop fails. -/
theorem mcScript_initLoop_error (parse : String → ParseResult) (today : Int)
    (keys : List String) (pfs : List MCPayoff) (script : List String) (ow : Bool)
    (hlen : keys.length = pfs.length) (e : String)
    (hinit : initLoop ow (keys.zip pfs) [] = .error e) :
    mcScript parse today keys pfs script ow = .error e := by
  unfold mcScript
  rw [if_neg (fun hne => hne hlen), hinit]

/-- Unfolding of the constructor past a successful initial-binding loop. -/
theorem mcScript_initLoop_ok (parse : String → ParseResult) (today : Int)
    (keys : List String) (pfs : List MCPayoff) (script : List String) (ow : Bool)
    (hlen : keys.length = pfs.length) (m0 : PayoffMap)
    (hinit : initLoop ow (keys.zip pfs) [] = .ok m0) :
    mcScript parse today keys pfs script ow =
      (match (processScript parse today ow script ⟨m0, [], []⟩).payoffs with
        | [] => Except.error "MCScript error: no payoffs stored."
        | q :: qs =>
            match mapFind (processScript parse today ow script ⟨m0, [], []⟩).payoffs
                "payoff" with
            | some p => Except.ok ⟨processScript parse today ow script ⟨m0, [], []⟩, p⟩
            | none => Except.ok ⟨processScript parse today ow script ⟨m0, [], []⟩,
                ((q :: qs).getLast (by simp)).2⟩) := by
  unfold mcScript
  rw [if_neg (fun hne => hne hlen), hinit]

/-- C2: construction fails exactly when the key/payoff lists have different
lengths, an initial binding would duplicate an existing name while
overwriting is disabled (the map starts empty, so this means a repeated
key), or the symbol table is still empty after the whole script was
processed; in every other case construction completes. -/
theorem C2_constructor_failure_cases :
    ∀ (parse : String → ParseResult) (today : Int) (keys : List String)
      (pfs : List MCPayoff) (script : List String) (ow : Bool),
      (mcScript parse today keys pfs script ow).isOk = true ↔
        (keys.length = pfs.length ∧ (ow = true ∨ keys.Nodup) ∧
         (processScript parse today ow script
            ⟨initMap (keys.zip pfs) [], [], []⟩).payoffs ≠ []) := by
  intro parse today keys pfs script ow
  by_cases hlen : keys.length = pfs.length
  swap
  · simp [mcScript, hlen, Except.isOk, Except.toBool]
  · have hkeys : (keys.zip pfs).map Prod.fst = keys :=
      List.map_fst_zip keys pfs (le_of_eq hlen)
    rcases hinit : initLoop ow (keys.zip pfs) [] with e | m0
    · have h2 : ¬(ow = true ∨ keys.Nodup) := by
        intro hcase
        have hok : (initLoop ow (keys.zip pfs) []).isOk = true := by
          rw [initLoop_isOk]
          rcases hcase with h | h
          · exact Or.inl h
          · exact Or.inr ⟨by rwa [hkeys], fun key _ => rfl⟩
        rw [hinit] at hok
        simp [Except.isOk, Except.toBool] at hok
      constructor
      · intro h
        exfalso
        rw [mcScript_initLoop_error parse today keys pfs script ow hlen e hinit] at h
        simp [Except.isOk, Except.toBool] at h
      · rintro ⟨_, how, _⟩
        exact absurd how h2
    · have hm0 : m0 = initMap (keys.zip pfs) [] := initLoop_ok_val ow _ _ _ hinit
      subst hm0
      have h1 : (initLoop ow (keys.zip pfs) []).isOk = true := by
        rw [hinit]; rfl
      rw [initLoop_isOk] at h1
      have hown : ow = true ∨ keys.Nodup := by
        rcases h1 with h | ⟨h, _⟩
        · exact Or.inl h
        · exact Or.inr (by rwa [hkeys] at h)
      have hunf := mcScript_initLoop_ok parse today keys pfs script ow hlen _ hinit
      by_cases hpay : (processScript parse today ow script
          ⟨initMap (keys.zip pfs) [], [], []⟩).payoffs = []
      · constructor
        · intro h
          exfalso
          rw [hunf, hpay] at h
          simp [Except.isOk, Except.toBool] at h
        · rintro ⟨_, _, hne⟩
          exact absurd hpay hne
      · constructor
        · intro _
          exact ⟨hlen, hown, hpay⟩
        · intro _
          obtain ⟨q, qs, hlist⟩ := List.exists_cons_of_ne_nil hpay
          rw [hunf, hlist]
          rcases mapFind (q :: qs) "payoff" with _ | p <;>
            simp [Except.isOk, Except.toBool]

/-! ## Sortedness invariant of the compilation -/

/-- Every iteration of the primary-grammar loop either leaves the symbol
table unchanged, inserts a fresh key, or replaces the value of an existing
key. -/
theorem stepFB_payoffs_shape (parse : String → ParseResult) (today : Int) (ow : Bool)
    (s : ScriptState) (line : String) (k : Nat) :
    (stepFB parse today ow s line k).payoffs = s.payoffs ∨
    (∃ v p, mapFind s.payoffs v = none ∧
      (stepFB parse today ow s line k).payoffs = mapInsert s.payoffs v p) ∨
    (∃ v p, (stepFB parse today ow s line k).payoffs = mapReplace s.payoffs v p) := by
  rcases hd : parse line with ⟨rv, tr, em⟩
  by_cases hrv : rv = 0
  · subst hrv
    rcases tr with _ | ⟨tt, tcs, tls⟩
    · left; simp [stepFB, hd]
    · by_cases htt : tt = ExprType.ASSIGNMENT
      swap
      · left; simp [stepFB, hd, Expression.type, htt]
      · subst htt
        match tcs, tls with
        | [c], [v] =>
            rcases hpe : payoffE today s.payoffs k c with ⟨r, lg⟩
            rcases r with e | p
            · left
              simp [stepFB, hd, Expression.type, Expression.childs, Expression.leafs, hpe]
            · by_cases hv : v = ""
              · subst hv; left
                simp [stepFB, hd, Expression.type, Expression.childs, Expression.leafs, hpe]
              · rcases hfind : mapFind s.payoffs v with _ | q
                · right; left
                  refine ⟨v, p, hfind, ?_⟩
                  simp [stepFB, hd, Expression.type, Expression.childs, Expression.leafs,
                    hpe, hv, bindVar, hfind]
                · cases ow with
                  | true =>
                      right; right
                      refine ⟨v, p, ?_⟩
                      simp [stepFB, hd, Expression.type, Expression.childs, Expression.leafs,
                        hpe, hv, bindVar, hfind]
                  | false =>
                      left
                      simp [stepFB, hd, Expression.type, Expression.childs, Expression.leafs,
                        hpe, hv, bindVar, hfind]
        | [], tls =>
            left
            simp only [stepFB, hd, Expression.type, Expression.childs, Expression.leafs]
            split <;> rfl
        | c1 :: c2 :: tcs, tls =>
            left
            simp only [stepFB, hd, Expression.type, Expression.childs, Expression.leafs]
            split <;> rfl
        | [c], [] =>
            left
            simp only [stepFB, hd, Expression.type, Expression.childs, Expression.leafs]
            split <;> rfl
        | [c], v1 :: v2 :: tls =>
            left
            simp only [stepFB, hd, Expression.type, Expression.childs, Expression.leafs]
            split <;> rfl
  · left
    rcases tr with _ | t <;> simp [stepFB, hd, hrv]

/-- The legacy-grammar analogue of `stepFB_payoffs_shape`. -/
theorem stepLegacy_payoffs_shape (ow : Bool) (s : ScriptState) (raw : String) (k : Nat) :
    (stepLegacy ow s raw k).payoffs = s.payoffs ∨
    (∃ v p, mapFind s.payoffs v = none ∧
      (stepLegacy ow s raw k).payoffs = mapInsert s.payoffs v p) ∨
    (∃ v p, (stepLegacy ow s raw k).payoffs = mapReplace s.payoffs v p) := by
  rcases hma : matchAssignment (removeSpaces raw) with _ | ⟨v, expr⟩
  · left; simp [stepLegacy, hma]
  · rcases hce : compileLegacyExpr s.payoffs expr k with ⟨popt, lg⟩
    rcases popt with _ | p
    · left; simp [stepLegacy, hma, hce]
    · rcases hfind : mapFind s.payoffs v with _ | q
      · right; left
        exact ⟨v, p, hfind, by simp [stepLegacy, hma, hce, bindVarLegacy, hfind]⟩
      · cases ow with
        | true =>
            right; right
            exact ⟨v, p, by simp [stepLegacy, hma, hce, bindVarLegacy, hfind]⟩
        | false => left; simp [stepLegacy, hma, hce, bindVarLegacy, hfind]

theorem keySorted_of_shape {m m' : PayoffMap} (hs : keySorted m)
    (h : m' = m ∨ (∃ v p, mapFind m v = none ∧ m' = mapInsert m v p) ∨
      (∃ v p, m' = mapReplace m v p)) : keySorted m' := by
  rcases h with h | ⟨v, p, hf, h⟩ | ⟨v, p, h⟩
  · subst h; exact hs
  · subst h; exact keySorted_insert p hs hf
  · subst h; exact keySorted_replace v p hs

theorem keySorted_parseFBFrom (parse : String → ParseResult) (today : Int) (ow : Bool) :
    ∀ (lines : List String) (s : ScriptState) (j : Nat), keySorted s.payoffs →
      keySorted (parseFBFrom parse today ow lines s j).payoffs := by
  intro lines
  induction lines with
  | nil => intro s j hs; exact hs
  | cons l rest ih =>
      intro s j hs
      exact ih _ _ (keySorted_of_shape hs (stepFB_payoffs_shape parse today ow s l j))

theorem keySorted_parseLegacyFrom (ow : Bool) :
    ∀ (lines : List String) (s : ScriptState) (j : Nat), keySorted s.payoffs →
      keySorted (parseLegacyFrom ow lines s j).payoffs := by
  intro lines
  induction lines with
  | nil => intro s j hs; exact hs
  | cons l rest ih =>
      intro s j hs
      exact ih _ _ (keySorted_of_shape hs (stepLegacy_payoffs_shape ow s l j))

theorem keySorted_initMap : ∀ (l : List (String × MCPayoff)) (m : PayoffMap),
    keySorted m → keySorted (initMap l m) := by
  intro l
  induction l with
  | nil => intro m h; exact h
  | cons a rest ih =>
      intro m h
      obtain ⟨key, p⟩ := a
      rcases hf : mapFind m key with _ | q
      · simp only [initMap, hf]; exact ih _ (keySorted_insert p h hf)
      · simp only [initMap, hf]; exact ih _ (keySorted_replace key p h)

theorem keySorted_processScript (parse : String → ParseResult) (today : Int) (ow : Bool)
    (script : List String) (s : ScriptState) (hs : keySorted s.payoffs) :
    keySorted (processScript parse today ow script s).payoffs := by
  unfold processScript
  split
  · exact keySorted_parseLegacyFrom ow script s 0 hs
  · exact keySorted_parseFBFrom parse today ow script s 0 hs

/-- C1 (amended): after construction, the designated result payoff is the
node bound to `"payoff"` when that name is present; when it is absent, it is
the node of the last entry of the key-sorted symbol table — the
lexicographically greatest bound name (`std::map` iteration order), not the
most-recently-inserted one. -/
theorem C1_result_selection :
    ∀ (parse : String → ParseResult) (today : Int) (keys : List String)
      (pfs : List MCPayoff) (script : List String) (ow : Bool) (r : MCScriptRec),
      mcScript parse today keys pfs script ow = .ok r →
      keySorted r.state.payoffs ∧
      (∀ p, mapFind r.state.payoffs "payoff" = some p → r.result = p) ∧
      (mapFind r.state.payoffs "payoff" = none →
        ∃ last, r.state.payoffs.getLast? = some last ∧ r.result = last.2 ∧
          ∀ e ∈ r.state.payoffs, e.1 ≤ last.1) := by
  intro parse today keys pfs script ow r hr
  by_cases hlen : keys.length = pfs.length
  swap
  · exfalso
    unfold mcScript at hr
    rw [if_pos hlen] at hr
    cases hr
  · rcases hinit : initLoop ow (keys.zip pfs) [] with e | m0
    · rw [mcScript_initLoop_error parse today keys pfs script ow hlen e hinit] at hr
      cases hr
    · rw [mcScript_initLoop_ok parse today keys pfs script ow hlen m0 hinit] at hr
      have hm0 : m0 = initMap (keys.zip pfs) [] := initLoop_ok_val ow _ _ _ hinit
      have hsortS : keySorted (processScript parse today ow script ⟨m0, [], []⟩).payoffs := by
        apply keySorted_processScript
        show keySorted m0
        rw [hm0]
        exact keySorted_initMap _ [] List.Pairwise.nil
      rcases hlist : (processScript parse today ow script ⟨m0, [], []⟩).payoffs
        with _ | ⟨q, qs⟩
      · rw [hlist] at hr
        cases hr
      · rw [hlist] at hr hsortS
        rcases hfind : mapFind (q :: qs) "payoff" with _ | p <;> rw [hfind] at hr
        · -- fallback to the last (greatest) entry
          cases hr
          refine ⟨by simpa [hlist] using hsortS, ?_, ?_⟩
          · intro p hp
            rw [show (MCScriptRec.state _) = processScript parse today ow script ⟨m0, [], []⟩
              from rfl, hlist] at hp
            rw [hfind] at hp
            cases hp
          · intro _
            have hne : (q :: qs) ≠ [] := by simp
            refine ⟨(q :: qs).getLast hne, ?_, rfl, ?_⟩
            · show (processScript parse today ow script ⟨m0, [], []⟩).payoffs.getLast? = _
              rw [hlist]
              exact List.getLast?_eq_getLast _ hne
            · intro e he
              rw [show (MCScriptRec.state _) = processScript parse today ow script ⟨m0, [], []⟩
                from rfl, hlist] at he
              exact keySorted_last_max hsortS hne e he
        · -- "payoff" present
          cases hr
          refine ⟨by simpa [hlist] using hsortS, ?_, ?_⟩
          · intro p' hp
            rw [show (MCScriptRec.state _) = processScript parse today ow script ⟨m0, [], []⟩
              from rfl, hlist, hfind] at hp
            cases hp
            rfl
          · intro hp
            rw [show (MCScriptRec.state _) = processScript parse today ow script ⟨m0, [], []⟩
              from rfl, hlist, hfind] at hp
            cases hp

/-- A driver oracle that rejects every line; the scripts passed alongside it
are empty, so it is never consulted. -/
def parse0 : String → ParseResult := fun _ => ⟨1, none, "parse error"⟩

/-- C1 as stated is refuted at a concrete input: initial bindings are
inserted in order `"b"` then `"a"`, so `"a"` is the most-recently-inserted
name and it is bound to `FixedAmount 2`; the script is empty and no
`"payoff"` name exists.  The constructed result is `FixedAmount 1` — the
payoff of the lexicographically greatest key `"b"` (`rbegin()` of the
`std::map`) — and not `FixedAmount 2`, the payoff of the most-recently-
inserted name. -/
theorem C1_counterexample :
    (mcScript parse0 0 ["b", "a"] [.FixedAmount 1, .FixedAmount 2] [] true).map
        (fun r => r.result) = .ok (.FixedAmount 1) ∧
    (mcScript parse0 0 ["b", "a"] [.FixedAmount 1, .FixedAmount 2] [] true).map
        (fun r => mapFind r.state.payoffs "payoff") = .ok none ∧
    MCPayoff.FixedAmount 1 ≠ MCPayoff.FixedAmount 2 := by
  refine ⟨rfl, rfl, fun h => ?_⟩
  injection h with h1
  exact absurd h1 (by norm_num)

/-- The object constructed from the single initial binding
`("x", FixedAmount 1)` and an empty script. -/
def mcRun1 : MCScriptRec := ⟨⟨[("x", .FixedAmount 1)], [], []⟩, .FixedAmount 1⟩

/-- Witness for the amended C1 at a concrete constructed object. -/
theorem C1_result_selection_witness :
    keySorted mcRun1.state.payoffs ∧
    (∀ p, mapFind mcRun1.state.payoffs "payoff" = some p → mcRun1.result = p) ∧
    (mapFind mcRun1.state.payoffs "payoff" = none →
      ∃ last, mcRun1.state.payoffs.getLast? = some last ∧ mcRun1.result = last.2 ∧
        ∀ e ∈ mcRun1.state.payoffs, e.1 ≤ last.1) :=
  C1_result_selection parse0 0 ["x"] [.FixedAmount 1] [] true mcRun1 rfl

end MCScript
